import Mathlib

/-!
A verification development for the ANARCII sequence-numbering pipeline.

The definitions below are a shallow embedding of the orchestration layer of the
repository: input normalization and delimiter splitting
(`src/anarcii/input_data_processing/__init__.py`), window picking
(`src/anarcii/input_data_processing/utils.py`), chunked execution and structure
renumbering (`src/anarcii/pipeline/__init__.py`), the bound output methods
(`src/anarcii/pipeline/methods.py`), and the IMGT-aware CSV column ordering
(`src/anarcii/output_data_processing/__init__.py`).

Python dictionaries with unique keys are embedded as association lists
(`List (κ × ν)`) that preserve insertion order; the external neural models
(numbering model, window model, classifier) are opaque collaborators and appear
as abstract function parameters.
-/

namespace Anarcii

/-! ## Input normalization: `input_data_processing/__init__.py` -/

/-- Zero-padding of a natural number to a given width, as in the format string
`f"{i:0{width}d}"`. -/
def padZeros (width : Nat) (i : Nat) : String :=
  ⟨List.replicate (width - (Nat.repr i).length) '0' ++ (Nat.repr i).data⟩

/-- The sequential naming applied by `coerce_input` to a list of bare sequence
strings: `f"Sequence {i:0{width}d}"` for `i = 1, ..., n` with
`width = len(str(len(input_data)))`. -/
def sequentialNames (l : List String) : List (String × String) :=
  let width := (Nat.repr l.length).length
  l.enum.map fun p => ("Sequence " ++ padZeros width (p.1 + 1), p.2)

/-- Embedding of `coerce_input` applied to a list of bare sequence strings.

The source first attempts `dict(input_data)`: when every element of the list is
a string of exactly two characters, Python accepts each element as a
(key, value) character pair and the call succeeds, so the list branch is never
reached.  Otherwise `dict` raises `ValueError` and the `isinstance(..., list)`
branch labels the sequences sequentially. -/
def coerce_input_list (l : List String) : List (String × String) :=
  if l.all fun s => s.length = 2 then
    l.filterMap fun s =>
      match s.data with
      | [a, b] => some (⟨[a]⟩, ⟨[b]⟩)
      | _ => none
  else
    sequentialNames l

/-- Outcome of `coerce_input` on a single string. -/
inductive CoerceStrResult
  | fileRead
  | named (pairs : List (String × String))
  | emptyDict
  deriving DecidableEq

/-- Embedding of `coerce_input` applied to a single string.

`dict("")` succeeds with an empty dictionary; for a nonempty string `dict`
raises `ValueError` and the string branch checks `Path(input_data).suffix`: a
string containing a `.` is treated as a file path, otherwise the sequence is
labelled with the single default name `"Sequence"`. -/
def coerce_input_str (s : String) : CoerceStrResult :=
  if s.data.isEmpty then .emptyDict
  else if s.data.contains '.' then .fileRead
  else .named [("Sequence", s)]

/-- The paired-sequence delimiter characters, `r"-\/"`. -/
def pairedSequenceDelimiters : List Char := ['-', '\\', '/']

def isDelim (c : Char) : Bool := pairedSequenceDelimiters.contains c

/-- Embedding of `sequence.strip(paired_sequence_delimiters)`: remove leading and trailing
delimiter characters. -/
def stripDelims (s : List Char) : List Char :=
  ((s.dropWhile isDelim).reverse.dropWhile isDelim).reverse

/-- Embedding of `split_sequence`: strip leading/trailing delimiters; if delimiter characters
remain, split on them (`re.split` keeps empty parts) and name the parts
`f"{name}-{i:0{width}d}"` with `width = len(str(len(split_parts)))`; otherwise
yield the stripped sequence under its original name. -/
def split_sequence (name : String) (sequence : String) : List (String × String) :=
  let s := stripDelims sequence.data
  if s.any isDelim then
    let parts := s.splitOnP isDelim
    let width := (Nat.repr parts.length).length
    parts.enum.map fun p => (name ++ "-" ++ padZeros width (p.1 + 1), (⟨p.2⟩ : String))
  else
    [(name, (⟨s⟩ : String))]

/-- Embedding of `split_sequences`: apply `split_sequence` to every entry of the ordered
mapping and concatenate, so split parts sit at the position of their
originating sequence. -/
def split_sequences (seqs : List (String × String)) : List (String × String) :=
  (seqs.map fun kv => split_sequence kv.1 kv.2).flatten

/-! ## IMGT column ordering: `output_data_processing/__init__.py`

Residue keys are pairs `(residue number, insertion character)`, with `' '`
standing for the blank (no-insertion) character.  `SortedSet` holds these keys
in ascending lexicographic order (Python tuple order, characters by code
point); the functions below receive that sorted list.

`SortedSet.irange` with a 1-tuple bound `(high,)` compares `(high,) ≤ (n, c)`
iff `high ≤ n` and `(n, c) < (high,)` iff `n < high`, because a proper prefix
of a tuple sorts strictly before it.  With `inclusive=(True, False)` the
half-open ranges used by `_imgt_order_segments` therefore select:

* `irange((low + 1,), (high,))` — the keys with `low < n < high`;
* `irange((high,), (high + 1,), reverse=True)` — the keys with `n = high`, in
  descending order;
* `irange(minimum=(high + 1,))` — the keys with `n > high`.
-/

abbrev ResKey := Nat × Char

/-- The boundary residue numbers at which IMGT numbers insertions inward:
`imgt_reversed = 33, 61, 112`. -/
def imgt_reversed : List Nat := [33, 61, 112]

/-- The consecutive boundary pairs from `pairwise((None, *imgt_reversed))`. -/
def boundaryPairs : List (Option Nat × Nat) :=
  (none :: imgt_reversed.map some).zip imgt_reversed

/-- The lower-bound test of the ascending segment of a boundary pair:
no bound for the first pair, `(low + 1,) ≤ key` (that is `low < key.1`)
afterwards. -/
def lowOk (low : Option Nat) (k : ResKey) : Bool :=
  match low with
  | none => true
  | some lo => lo < k.1

/-- The two segments emitted for one boundary pair `(low, high)`: the ascending
run strictly between the boundaries, then the keys at `high` exactly, in
descending order. -/
def segPair (numbers : List ResKey) (low : Option Nat) (high : Nat) :
    List (List ResKey) :=
  [numbers.filter fun k => lowOk low k && decide (k.1 < high),
   (numbers.filter fun k => decide (k.1 = high)).reverse]

/-- Embedding of `_imgt_order_segments`: the segments for the three boundary pairs, then the
keys beyond the last boundary (the loop variable `high` holds `112` after the
loop). -/
def imgt_order_segments (numbers : List ResKey) : List (List ResKey) :=
  (boundaryPairs.map fun p => segPair numbers p.1 p.2).flatten
    ++ [numbers.filter fun k => decide (112 < k.1)]

/-- Embedding of `imgt_order`: concatenate the segments. -/
def imgt_order (numbers : List ResKey) : List ResKey :=
  (imgt_order_segments numbers).flatten

/-- Strict ascending order on residue keys: Python tuple order on
`(int, single-character string)`. -/
def keyLT (a b : ResKey) : Prop :=
  a.1 < b.1 ∨ (a.1 = b.1 ∧ a.2 < b.2)

instance (a b : ResKey) : Decidable (keyLT a b) := by
  unfold keyLT; infer_instance

/-! ## Output methods: `pipeline/methods.py`

The bound methods `to_csv`, `to_json` and `to_imgt_regions` branch on the
instance attributes `_last_numbered_output`, `_last_converted_output` and
`max_len_exceed`.  The first two are assigned in `Anarcii.__init__` (to `None`)
and by `number`/`to_scheme`; `max_len_exceed` is read but assigned nowhere, so
it is embedded as `Option Bool` with `none` meaning "attribute missing" —
reading it then raises `AttributeError`.  The Python `and` operator
short-circuits, so the attribute is only read once a truthiness test reaches
it. -/

structure AnarciiState where
  lastNumbered : Option Unit
  lastConverted : Option Unit
  maxLenExceed : Option Bool
  deriving DecidableEq

/-- Observable outcome of one of the bound output methods. -/
inductive MethodOutcome
  | noOutputError
  | convertedWrite
  | unsupportedCombination
  | streamingPath
  | bufferedWrite
  | attributeError (attr : String)
  deriving DecidableEq

/-- Embedding of `to_csv` from `pipeline/methods.py`, as the outcome of its `elif` chain. -/
def to_csv (st : AnarciiState) : MethodOutcome :=
  match st.lastNumbered with
  | none => .noOutputError
  | some _ =>
    match st.lastConverted, st.maxLenExceed with
    | some _, none => .attributeError "max_len_exceed"
    | some _, some false => .convertedWrite
    | some _, some true => .unsupportedCombination
    | none, none => .attributeError "max_len_exceed"
    | none, some true => .streamingPath
    | none, some false => .bufferedWrite

/-- Embedding of `to_json` from `pipeline/methods.py`: the same `elif` chain as `to_csv`. -/
def to_json (st : AnarciiState) : MethodOutcome :=
  match st.lastNumbered with
  | none => .noOutputError
  | some _ =>
    match st.lastConverted, st.maxLenExceed with
    | some _, none => .attributeError "max_len_exceed"
    | some _, some false => .convertedWrite
    | some _, some true => .unsupportedCombination
    | none, none => .attributeError "max_len_exceed"
    | none, some true => .streamingPath
    | none, some false => .bufferedWrite

/-- Embedding of `to_imgt_regions` from `pipeline/methods.py`: no converted-output branch,
but its `elif self.max_len_exceed:` also reads the absent attribute. -/
def to_imgt_regions (st : AnarciiState) : MethodOutcome :=
  match st.lastNumbered with
  | none => .noOutputError
  | some _ =>
    match st.maxLenExceed with
    | none => .attributeError "max_len_exceed"
    | some true => .streamingPath
    | some false => .bufferedWrite

/-- The attribute state established by `Anarcii.__init__`: both output
attributes are `None` and `max_len_exceed` is never assigned. -/
def anarciiInit : AnarciiState :=
  { lastNumbered := none, lastConverted := none, maxLenExceed := none }

/-- The state update performed by a successful buffered `number` run: only
`_last_numbered_output` is assigned. -/
def afterNumber (st : AnarciiState) : AnarciiState :=
  { st with lastNumbered := some () }

/-- The state update performed by `to_scheme`: only `_last_converted_output`
(and `_alt_scheme`) are assigned. -/
def afterToScheme (st : AnarciiState) : AnarciiState :=
  { st with lastConverted := some () }

/-! ## Chunked execution: `pipeline/__init__.py`

`Anarcii.number` normalizes its input, then iterates
`batched(seqs.items(), self.max_seqs_len)`.  Per chunk it either numbers the
chunk directly with the configured sequence type, or (for `seq_type ==
"unknown"`) first partitions the chunk with the classifier and numbers each
group with its own model, merging the group dictionaries with `dict.update`.
It then restores the original key order of the chunk with
`{key: numbered[key] for key in chunk}` and either appends the chunk to the
MessagePack stream (when `serialise`) or assigns it to
`_last_numbered_output`. -/

/-- Recursion core of `batched`, with an explicit fuel argument (first
parameter) that makes the recursion structural; `batched` supplies fuel
`l.length`, which is never exhausted. -/
def batchedGo : Nat → Nat → List α → List (List α)
  | _, _, [] => []
  | 0, _, _ :: _ => []
  | _ + 1, 0, _ :: _ => []
  | fuel + 1, n + 1, x :: xs =>
    (x :: xs).take (n + 1) :: batchedGo fuel (n + 1) ((x :: xs).drop (n + 1))

/-- The `batched` fallback defined in `pipeline/__init__.py` for Python < 3.12:
repeatedly take the next `n` items until the iterator is exhausted.  The source
raises `ValueError` for `n < 1`; the model returns `[]` there and every theorem
assumes `0 < n`. -/
def batched (l : List α) (n : Nat) : List (List α) := batchedGo l.length n l

/-- The serialisation decision `serialise := n_seqs > self.max_seqs_len`. -/
def serialise (nSeqs maxSeqsLen : Nat) : Bool := nSeqs > maxSeqsLen

/-- The opaque external collaborators used by one `number` run: the classifier
(`Classifii`, a partition of a chunk into labelled groups) and the per-type
numbering path (`number_with_type`, whose result dictionary may be in a
different order than its input). -/
structure ChunkModel (κ σ ν : Type) where
  classify : List (κ × σ) → List (String × List (κ × σ))
  runType : String → List (κ × σ) → List (κ × ν)

/-- The merged per-chunk model output before order restoration: for the
`"unknown"` type, the classifier groups are numbered one by one and combined
with `dict.update` (concatenation, the groups having disjoint key sets);
otherwise `number_with_type` is called on the whole chunk. -/
def combinedNumbered (m : ChunkModel κ σ ν) (unknownType : Bool) (seqType : String)
    (chunk : List (κ × σ)) : List (κ × ν) :=
  if unknownType then
    ((m.classify chunk).map fun p => m.runType p.1 p.2).flatten
  else
    m.runType seqType chunk

/-- The order-restoration step `{key: numbered[key] for key in chunk}`: look
every chunk key up in the model output, in chunk order; a missing key raises
`KeyError` (`none`). -/
def rekey [BEq κ] (chunk : List (κ × σ)) (numbered : List (κ × ν)) :
    Option (List (κ × ν)) :=
  match chunk with
  | [] => some []
  | kv :: rest =>
    match numbered.lookup kv.1, rekey rest numbered with
    | some v, some out => some ((kv.1, v) :: out)
    | _, _ => none

/-- One iteration of the chunk loop: model invocation followed by order
restoration. -/
def processChunk [BEq κ] (m : ChunkModel κ σ ν) (unknownType : Bool)
    (seqType : String) (chunk : List (κ × σ)) : Option (List (κ × ν)) :=
  rekey chunk (combinedNumbered m unknownType seqType chunk)

/-- Process the chunks in order, failing on the first `KeyError`. -/
def processChunks [BEq κ] (m : ChunkModel κ σ ν) (unknownType : Bool)
    (seqType : String) : List (List (κ × σ)) → Option (List (List (κ × ν)))
  | [] => some []
  | c :: cs =>
    match processChunk m unknownType seqType c, processChunks m unknownType seqType cs with
    | some r, some rs => some (r :: rs)
    | _, _ => none

/-- The entries exposed after `number` completes: the buffered result dictionary
when only one chunk was processed (`serialise` false means the input fits in a
single chunk), or the concatenation of the chunks appended to the MessagePack
stream, in either case the flattening of the per-chunk results in chunk
order. -/
def numberResult [BEq κ] (m : ChunkModel κ σ ν) (unknownType : Bool)
    (seqType : String) (maxSeqsLen : Nat) (seqs : List (κ × σ)) :
    Option (List (κ × ν)) :=
  (processChunks m unknownType seqType (batched seqs maxSeqsLen)).map List.flatten

/-- Observable output events of one `number` run in streaming mode: the
MessagePack map header carrying the total entry count, and one append per
completed chunk. -/
inductive Event (κ ν : Type)
  | writeHeader (count : Nat)
  | chunkAppended (entries : List (κ × ν))

/-- The output-event trace of `number`: when `serialise` holds, the map header
(with the total sequence count) is written before the chunk loop starts, and
each chunk is appended after it completes; in buffered mode no header exists
and the per-chunk results replace `_last_numbered_output`. -/
def numberEvents [BEq κ] (m : ChunkModel κ σ ν) (unknownType : Bool)
    (seqType : String) (maxSeqsLen : Nat) (seqs : List (κ × σ)) :
    Option (List (Event κ ν)) :=
  (processChunks m unknownType seqType (batched seqs maxSeqsLen)).map fun rs =>
    if serialise seqs.length maxSeqsLen then
      .writeHeader seqs.length :: rs.map .chunkAppended
    else
      rs.map .chunkAppended

/-! ## Structure renumbering: `renumber_pdbx` in `pipeline/__init__.py`

The Gemmi polymer is embedded as a list of residues, each with a one-letter
code (derived from the residue name, untouched by renumbering) and a mutable
`seqid` consisting of a number and an insertion code. -/

structure Residue where
  letter : Char
  seqid : Int × Char
  deriving DecidableEq

/-- The slice of the ANARCII result dictionary that `renumber_pdbx` reads:
`numbered["numbering"]` (a list of `((number, insertion), residue)` entries)
and `numbered["query_start"]`. -/
structure ModelNumbering where
  numbering : List ((Int × Char) × Char)
  query_start : Nat
  deriving DecidableEq

/-- Drop the gap markers: `(num, res) for num, res in numbered["numbering"] if
res != "-"`. -/
def noGaps (numbered : ModelNumbering) : List ((Int × Char) × Char) :=
  numbered.numbering.filter fun e => decide (e.2 ≠ '-')

/-- Embedding of `str.index` on character lists: the first index at which `pat` occurs as a
contiguous substring of `hay`, if any. -/
def indexOfSublist (hay pat : List Char) : Option Nat :=
  (List.range (hay.length + 1)).find? fun i => pat.isPrefixOf (hay.drop i)

/-- Python `range(lo, hi)` over integers. -/
def intRange (lo hi : Int) : List Int :=
  (List.range (hi - lo).toNat).map fun j => lo + j

/-- The numbering offset: the match index of the gap-free numbered sequence in
the one-letter sequence of the polymer, or, when no substring match exists, the
model-reported `query_start`. -/
def resolveOffset (polymer : List Residue) (numbered : ModelNumbering) : Int :=
  match indexOfSublist (polymer.map Residue.letter) ((noGaps numbered).map Prod.snd) with
  | some i => (i : Int)
  | none => (numbered.query_start : Int)

/-- The combined numbering: the synthetic backfill
`zip(range(first_number - offset, first_number), repeat(" "))` followed by the
model numbers. -/
def fullNumbers (polymer : List Residue) (numbered : ModelNumbering) :
    List (Int × Char) :=
  match noGaps numbered with
  | [] => []
  | ((first, _), _) :: _ =>
    ((intRange (first - resolveOffset polymer numbered) first).map fun j => (j, ' '))
      ++ (noGaps numbered).map Prod.fst

/-- The final assignment loop `for residue, number in zip(polymer, numbers)`:
`zip` stops at the shorter of the two sequences, so surplus numbers are
dropped and surplus residues keep their previous `seqid`. -/
def assignNumbers : List Residue → List (Int × Char) → List Residue
  | [], _ => []
  | rs, [] => rs
  | r :: rs, n :: ns => { r with seqid := n } :: assignNumbers rs ns

/-- Embedding of `renumber_pdbx`: with an empty gap-free numbering the unpacking
`numbers, sequence = zip(*no_gaps)` raises (`none`); otherwise resolve the
offset, build the combined numbering and assign it positionally. -/
def renumber_pdbx (polymer : List Residue) (numbered : ModelNumbering) :
    Option (List Residue) :=
  match noGaps numbered with
  | [] => none
  | _ :: _ => some (assignNumbers polymer (fullNumbers polymer numbered))

/-! ## Window picking: `input_data_processing/utils.py`

The tokeniser of the window model is opaque; only its failure behaviour matters: a
residue character outside the vocabulary raises `KeyError` for that one
sequence.  `pick_windows` catches the error, appends an empty placeholder for
the failing sequence and goes on tokenising the rest, finally submitting the
whole list to the window model. -/

structure Tokeniser where
  startTok : Char
  endTok : Char
  vocab : Char → Option Nat

/-- Embedding of `aa.encode`: token lookup for every character, failing (`KeyError`) on the
first character outside the vocabulary. -/
def encode (aa : Tokeniser) (chars : List Char) : Option (List Nat) :=
  match chars with
  | [] => some []
  | c :: cs =>
    match aa.vocab c, encode aa cs with
    | some t, some ts => some (t :: ts)
    | _, _ => none

/-- One entry of the list handed to the window model: the tokenised sequence,
or the empty-list placeholder appended when tokenisation failed. -/
inductive WindowEntry
  | tok (ts : List Nat)
  | placeholder
  deriving DecidableEq

/-- The tokenisation loop of `pick_windows`: bookend each sequence with the
start and end tokens, tokenise it, and append a placeholder on failure. -/
def pick_windows_entries (aa : Tokeniser) (seqs : List String) : List WindowEntry :=
  seqs.map fun seq =>
    match encode aa (aa.startTok :: seq.data ++ [aa.endTok]) with
    | some ts => .tok ts
    | none => .placeholder

/-- Embedding of `pick_windows`: submit the entries (one per input sequence) to the window
model in one call. -/
def pick_windows (aa : Tokeniser) (model : List WindowEntry → Bool → Nat)
    (seqs : List String) (fallback : Bool) : Nat :=
  model (pick_windows_entries aa seqs) fallback

/-! ## CSV serialization: `write_csv` in `output_data_processing/__init__.py`

A result dictionary maps sequence names to per-sequence results.  Failed
sequences have no `"numbering"` key (`result.get("numbering", [])` yields
`[]`), so their rows carry only the metadata fields and every residue cell is
filled by the `DictWriter` default `restval="-"`.  The model score is a
float; only its rendered form reaches the CSV, so it is embedded as the
rendered string. -/

/-- The per-sequence result record read by `write_csv`. -/
structure NumResult where
  numbering : Option (List (ResKey × Char))
  chain_type : String
  score : String
  query_start : Option Int
  query_end : Option Int
  scheme : String
  deriving DecidableEq

/-- Embedding of `str(num) + ins.strip()`: the column-name string of a residue key. -/
def keyStr (k : ResKey) : String :=
  Nat.repr k.1 ++ (if k.2 = ' ' then "" else (⟨[k.2]⟩ : String))

/-- Embedding of `numbered_sequence_dict`: the residue cells of one row, keyed by the
column-name strings. -/
def numbered_sequence_dict (numbering : List (ResKey × Char)) :
    List (String × String) :=
  numbering.map fun e => (keyStr e.1, (⟨[e.2]⟩ : String))

/-- The fixed metadata columns. -/
def metadataColumns : List String :=
  ["Name", "Chain", "Score", "Query start", "Query end"]

/-- Embedding of `zip(range(1, 129), repeat(" "))`: the always-present residue keys. -/
def requiredResidueNumbers : List ResKey :=
  (List.range 128).map fun i => (i + 1, ' ')

/-- Every residue key observed across all sequences of the result set. -/
def observedResidueNumbers (results : List (String × NumResult)) : List ResKey :=
  (results.map fun r => (r.2.numbering.getD []).map Prod.fst).flatten

/-- Ascending key order as a Bool relation, for sorting. -/
def keyLE (a b : ResKey) : Bool :=
  decide (a.1 < b.1) || (decide (a.1 = b.1) && decide (a.2 ≤ b.2))

/-- The `SortedSet` seeded with the required keys and updated with every
observed key: the distinct keys in ascending order. -/
def residueNumbersOf (results : List (String × NumResult)) : List ResKey :=
  ((requiredResidueNumbers ++ observedResidueNumbers results).mergeSort keyLE).dedup

/-- The scheme consulted by `write_csv`: the loop variable `result` holds the
last value of the iteration, so `result["scheme"]` is the scheme of the last
entry (an empty result dictionary raises `NameError`; the model returns `""`,
which selects the default order, and the theorems assume a nonempty set). -/
def lastScheme (results : List (String × NumResult)) : String :=
  match results.getLast? with
  | some r => r.2.scheme
  | none => ""

/-- The residue columns in final order: `imgt_order` for the IMGT scheme,
ascending order otherwise. -/
def orderedResidueNumbers (results : List (String × NumResult)) : List ResKey :=
  if lastScheme results = "imgt" then imgt_order (residueNumbersOf results)
  else residueNumbersOf results

/-- The CSV header: the metadata columns followed by the residue columns. -/
def csvHeader (results : List (String × NumResult)) : List String :=
  metadataColumns ++ (orderedResidueNumbers results).map keyStr

/-- The rendered cell of one row under one residue column: the residue
dictionary entry of the row, or the `DictWriter` default `restval="-"` when the row has no
value for that column. -/
def csvCell (r : NumResult) (col : String) : String :=
  ((numbered_sequence_dict (r.numbering.getD [])).lookup col).getD "-"

/-! ## Concrete instances used by the witnesses -/

/-- The sorted key set `{111, 111A, 112A, 112B, 112, 113}`. -/
def imgtExampleKeys : List ResKey :=
  [(111, ' '), (111, 'A'), (112, ' '), (112, 'A'), (112, 'B'), (113, ' ')]

/-- A window-model tokeniser with vocabulary `{^, $, A, C}`. -/
def demoTokeniser : Tokeniser :=
  { startTok := '^', endTok := '$',
    vocab := fun c => ([('^', 0), ('$', 1), ('A', 2), ('C', 3)].lookup c) }

/-- A collaborator model whose classifier routes a whole chunk to one group in
reverse order and whose numbering path reverses its input again, exercising the
per-chunk reordering that `number` must undo. -/
def demoChunkModel : ChunkModel String String String :=
  { classify := fun c => [("tcr", c.reverse)],
    runType := fun _ c => (c.map fun kv => (kv.1, kv.2 ++ "!")).reverse }

/-- An input mapping with a delimited (paired) sequence. -/
def demoSeqs : List (String × String) := [("b", "QQ"), ("a", "W-W")]

/-- Five input sequences, for the limit-2 chunking example. -/
def demoFiveSeqs : List (String × String) :=
  [("s1", "A"), ("s2", "B"), ("s3", "C"), ("s4", "D"), ("s5", "E")]

/-- A three-residue polymer `QVK`, numbered `1, 2, 3`. -/
def demoPolymer : List Residue :=
  [⟨'Q', (1, ' ')⟩, ⟨'V', (2, ' ')⟩, ⟨'K', (3, ' ')⟩]

/-- A model numbering covering the `VK` tail of `demoPolymer`. -/
def demoNumbering : ModelNumbering :=
  { numbering := [((10, ' '), 'V'), ((11, ' '), 'K')], query_start := 0 }

/-- A single-residue polymer, shorter than any two-key numbering. -/
def c2Polymer : List Residue := [⟨'A', (1, ' ')⟩]

/-- A gap-free numbering with two keys, more than `c2Polymer` has residues. -/
def c2Numbering : ModelNumbering :=
  { numbering := [((5, ' '), 'A'), ((6, ' '), 'B')], query_start := 0 }

/-- The state reached by a streaming run (over the serialisation threshold)
followed by `to_scheme`: both outputs present, `max_len_exceed` still never
assigned. -/
def convertedStreamingState : AnarciiState :=
  { lastNumbered := some (), lastConverted := some (), maxLenExceed := none }

/-- A two-sequence result set in the IMGT scheme: one numbered sequence and one
failed sequence (no `"numbering"` key). -/
def demoResults : List (String × NumResult) :=
  [("ok", { numbering := some [((1, ' '), 'Q'), ((112, 'A'), 'V')], chain_type := "H",
            score := "0.99", query_start := some 0, query_end := some 2,
            scheme := "imgt" }),
   ("bad", { numbering := none, chain_type := "F", score := "0",
             query_start := none, query_end := none, scheme := "imgt" })]

/-! ## Helper lemmas -/

theorem batchedGo_nil (f n : Nat) : batchedGo f n ([] : List α) = [] := by
  cases f <;> cases n <;> rfl

theorem batchedGo_congr (n : Nat) :
    ∀ (f g : Nat) (l : List α), l.length ≤ f → l.length ≤ g →
      batchedGo f n l = batchedGo g n l := by
  intro f
  induction f with
  | zero =>
    intro g l hf _
    obtain rfl : l = [] := List.length_eq_zero.mp (Nat.le_zero.mp hf)
    rw [batchedGo_nil, batchedGo_nil]
  | succ f ih =>
    intro g l hf hg
    cases l with
    | nil => rw [batchedGo_nil, batchedGo_nil]
    | cons x xs =>
      cases g with
      | zero => simp at hg
      | succ g =>
        cases n with
        | zero => rfl
        | succ m =>
          show _ :: batchedGo f (m + 1) _ = _ :: batchedGo g (m + 1) _
          have h1 : ((x :: xs).drop (m + 1)).length ≤ f := by
            simp at hf ⊢
            omega
          have h2 : ((x :: xs).drop (m + 1)).length ≤ g := by
            simp at hg ⊢
            omega
          exact congrArg _ (ih g _ h1 h2)

theorem batched_nil (n : Nat) : batched ([] : List α) n = [] := rfl

theorem batched_cons (x : α) (xs : List α) (n : Nat) :
    batched (x :: xs) (n + 1)
      = (x :: xs).take (n + 1) :: batched ((x :: xs).drop (n + 1)) (n + 1) := by
  show _ :: batchedGo xs.length (n + 1) _ = _ :: batchedGo ((x :: xs).drop (n + 1)).length (n + 1) _
  refine congrArg _ (batchedGo_congr (n + 1) _ _ _ ?_ le_rfl)
  simp

theorem batched_flatten_aux (n : Nat) (hn : 0 < n) :
    ∀ (fuel : Nat) (l : List α), l.length ≤ fuel → (batched l n).flatten = l := by
  intro fuel
  induction fuel with
  | zero =>
    intro l hl
    obtain rfl : l = [] := List.length_eq_zero.mp (Nat.le_zero.mp hl)
    simp [batched_nil]
  | succ f ih =>
    intro l hl
    cases l with
    | nil => simp [batched_nil]
    | cons x xs =>
      cases n with
      | zero => omega
      | succ m =>
        rw [batched_cons, List.flatten_cons, ih]
        · exact List.take_append_drop _ _
        · simp at hl ⊢
          omega

theorem batched_flatten (l : List α) (n : Nat) (hn : 0 < n) :
    (batched l n).flatten = l :=
  batched_flatten_aux n hn l.length l le_rfl

theorem batched_sizes_aux (n : Nat) (hn : 0 < n) :
    ∀ (fuel : Nat) (l : List α), l.length ≤ fuel →
      ∀ c ∈ batched l n, 0 < c.length ∧ c.length ≤ n := by
  intro fuel
  induction fuel with
  | zero =>
    intro l hl
    obtain rfl : l = [] := List.length_eq_zero.mp (Nat.le_zero.mp hl)
    simp [batched_nil]
  | succ f ih =>
    intro l hl c hc
    cases l with
    | nil => simp [batched_nil] at hc
    | cons x xs =>
      cases n with
      | zero => omega
      | succ m =>
        rw [batched_cons] at hc
        rcases List.mem_cons.mp hc with rfl | hc
        · simp
        · refine ih _ ?_ c hc
          simp at hl ⊢
          omega

theorem batched_dropLast_aux (n : Nat) (hn : 0 < n) :
    ∀ (fuel : Nat) (l : List α), l.length ≤ fuel →
      ∀ c ∈ (batched l n).dropLast, c.length = n := by
  intro fuel
  induction fuel with
  | zero =>
    intro l hl
    obtain rfl : l = [] := List.length_eq_zero.mp (Nat.le_zero.mp hl)
    simp [batched_nil]
  | succ f ih =>
    intro l hl c hc
    cases l with
    | nil => simp [batched_nil] at hc
    | cons x xs =>
      cases n with
      | zero => omega
      | succ m =>
        rw [batched_cons] at hc
        cases hdrop : (x :: xs).drop (m + 1) with
        | nil =>
          rw [hdrop, batched_nil] at hc
          simp at hc
        | cons y ys =>
          rw [hdrop, batched_cons] at hc
          have hlen : m + 1 ≤ xs.length := by
            have := congrArg List.length hdrop
            simp at this
            omega
          rw [show ((x :: xs).take (m + 1)
                :: (y :: ys).take (m + 1) :: batched ((y :: ys).drop (m + 1)) (m + 1)).dropLast
              = (x :: xs).take (m + 1)
                :: ((y :: ys).take (m + 1) :: batched ((y :: ys).drop (m + 1)) (m + 1)).dropLast
              from rfl] at hc
          rcases List.mem_cons.mp hc with rfl | hc
          · simp
            omega
          · rw [← batched_cons, ← hdrop] at hc
            refine ih _ ?_ c hc
            simp at hl ⊢
            omega

theorem rekey_eq_some [BEq κ] (chunk : List (κ × σ)) (numbered : List (κ × ν))
    (h : ∀ kv ∈ chunk, (numbered.lookup kv.1).isSome) :
    ∃ out, rekey chunk numbered = some out ∧ out.map Prod.fst = chunk.map Prod.fst := by
  induction chunk with
  | nil => exact ⟨[], rfl, rfl⟩
  | cons kv rest ih =>
    obtain ⟨v, hv⟩ := Option.isSome_iff_exists.mp (h kv (.head _))
    obtain ⟨out, hout, hkeys⟩ := ih fun kv' h' => h kv' (.tail _ h')
    exact ⟨(kv.1, v) :: out, by simp [rekey, hv, hout], by simp [hkeys]⟩

theorem processChunks_keys [BEq κ] (m : ChunkModel κ σ ν) (uc : Bool) (st : String) :
    ∀ cs : List (List (κ × σ)),
      (∀ c ∈ cs, ∀ kv ∈ c, ((combinedNumbered m uc st c).lookup kv.1).isSome) →
      ∃ rs, processChunks m uc st cs = some rs
        ∧ rs.flatten.map Prod.fst = cs.flatten.map Prod.fst := by
  intro cs
  induction cs with
  | nil => exact fun _ => ⟨[], rfl, rfl⟩
  | cons c cs ih =>
    intro h
    obtain ⟨r, hr, hrk⟩ := rekey_eq_some c _ (h c (.head _))
    obtain ⟨rs, hrs, hrsk⟩ := ih fun c' hc' => h c' (.tail _ hc')
    refine ⟨r :: rs, ?_, ?_⟩
    · simp [processChunks, processChunk, hr, hrs]
    · simp [hrk, hrsk]

theorem assignNumbers_letter (rs : List Residue) (ns : List (Int × Char)) :
    (assignNumbers rs ns).map Residue.letter = rs.map Residue.letter := by
  induction rs generalizing ns with
  | nil => cases ns <;> rfl
  | cons r rs ih =>
    cases ns with
    | nil => rfl
    | cons n ns => simp [assignNumbers, ih]

theorem assignNumbers_length (rs : List Residue) (ns : List (Int × Char)) :
    (assignNumbers rs ns).length = rs.length := by
  induction rs generalizing ns with
  | nil => cases ns <;> rfl
  | cons r rs ih =>
    cases ns with
    | nil => rfl
    | cons n ns => simp [assignNumbers, ih]

theorem assignNumbers_idem (rs : List Residue) (ns : List (Int × Char)) :
    assignNumbers (assignNumbers rs ns) ns = assignNumbers rs ns := by
  induction rs generalizing ns with
  | nil => cases ns <;> rfl
  | cons r rs ih =>
    cases ns with
    | nil => rfl
    | cons n ns => simp [assignNumbers, ih]

theorem resolveOffset_assign (polymer : List Residue) (numbered : ModelNumbering)
    (ns : List (Int × Char)) :
    resolveOffset (assignNumbers polymer ns) numbered = resolveOffset polymer numbered := by
  unfold resolveOffset
  rw [assignNumbers_letter]

theorem fullNumbers_assign (polymer : List Residue) (numbered : ModelNumbering)
    (ns : List (Int × Char)) :
    fullNumbers (assignNumbers polymer ns) numbered = fullNumbers polymer numbered := by
  cases h : noGaps numbered with
  | nil => simp [fullNumbers, h]
  | cons e rest => simp [fullNumbers, h, resolveOffset_assign]

theorem imgt_order_eq (l : List ResKey) :
    imgt_order l =
      l.filter (fun k => decide (k.1 < 33))
        ++ (l.filter fun k => decide (k.1 = 33)).reverse
        ++ l.filter (fun k => decide (33 < k.1) && decide (k.1 < 61))
        ++ (l.filter fun k => decide (k.1 = 61)).reverse
        ++ l.filter (fun k => decide (61 < k.1) && decide (k.1 < 112))
        ++ (l.filter fun k => decide (k.1 = 112)).reverse
        ++ l.filter fun k => decide (112 < k.1) := by
  simp [imgt_order, imgt_order_segments, boundaryPairs, imgt_reversed, segPair, lowOk]

theorem count_filter_eq {α : Type} [DecidableEq α] (p : α → Bool) (l : List α)
    (a : α) : (l.filter p).count a = if p a then l.count a else 0 := by
  by_cases h : p a
  · simp [List.count_filter, h]
  · simp only [h, if_false]
    exact List.count_eq_zero.mpr fun hmem => h (List.of_mem_filter hmem)

/-- The function `imgt_order` is a permutation of its input: the four ascending ranges and
the three boundary classes partition the residue keys. -/
theorem imgt_order_perm (l : List ResKey) : List.Perm (imgt_order l) l := by
  rw [List.perm_iff_count]
  intro a
  rw [imgt_order_eq]
  simp only [List.count_append, List.count_reverse, count_filter_eq]
  split_ifs <;> simp_all <;> omega

theorem head_filter_blank (l : List ResKey) (b : Nat) (hs : l.Pairwise keyLT)
    (hmem : (b, ' ') ∈ l) (hins : ∀ k ∈ l, ' ' ≤ k.2) :
    (l.filter fun k => decide (k.1 = b)).head? = some (b, ' ') := by
  induction l with
  | nil => cases hmem
  | cons x xs ih =>
    obtain ⟨hhead, htail⟩ := List.pairwise_cons.mp hs
    by_cases hxb : x.1 = b
    · rw [List.filter_cons_of_pos (by simpa using hxb), List.head?_cons]
      rcases List.mem_cons.mp hmem with rfl | hmem'
      · rfl
      · have hlt : keyLT x (b, ' ') := hhead _ hmem'
        have hx2 : ' ' ≤ x.2 := hins x (.head _)
        rcases hlt with h1 | ⟨h1, h2⟩
        · omega
        · exact absurd h2 (not_lt.mpr hx2)
    · rw [List.filter_cons_of_neg (by simpa using hxb)]
      have hmem' : (b, ' ') ∈ xs := by
        rcases List.mem_cons.mp hmem with heq | hmem'
        · exact absurd (congrArg Prod.fst heq).symm hxb
        · exact hmem'
      exact ih htail hmem' fun k hk => hins k (.tail _ hk)

theorem lookup_eq_none_of_keys (l : List (String × String)) (col : String)
    (h : ∀ e ∈ l, e.1 ≠ col) : l.lookup col = none := by
  induction l with
  | nil => rfl
  | cons e rest ih =>
    have hne : (col == e.1) = false :=
      beq_eq_false_iff_ne.mpr fun heq => h e (.head _) heq.symm
    simp only [List.lookup, hne]
    exact ih fun e' he' => h e' (.tail _ he')

theorem mem_residueNumbersOf (results : List (String × NumResult)) (k : ResKey) :
    k ∈ residueNumbersOf results ↔
      k ∈ requiredResidueNumbers ∨ k ∈ observedResidueNumbers results := by
  rw [residueNumbersOf, List.mem_dedup, (List.mergeSort_perm _ keyLE).mem_iff,
    List.mem_append]

theorem mem_orderedResidueNumbers (results : List (String × NumResult)) (k : ResKey) :
    k ∈ orderedResidueNumbers results ↔
      k ∈ requiredResidueNumbers ∨ k ∈ observedResidueNumbers results := by
  rw [orderedResidueNumbers]
  split_ifs
  · rw [(imgt_order_perm _).mem_iff, mem_residueNumbersOf]
  · exact mem_residueNumbersOf results k

/-! ## The claims -/

/-- Claim C1: for every post-normalization input mapping (including mappings
holding multi-part delimited sequences, produced by `split_sequences`) and
every chunk size, `number` succeeds and exposes its entries (buffered result or
persisted stream alike, both being the concatenation of the per-chunk results)
in exactly the order of the post-normalization mapping, for any classification
fan-out and any reordering by the models, as long as the fan-out and models
jointly return a result for every key of each chunk. -/
theorem order_preservation {ν : Type} (m : ChunkModel String String ν)
    (unknownType : Bool) (seqType : String) (maxSeqsLen : Nat) (hn : 0 < maxSeqsLen)
    (seqs : List (String × String))
    (hmodel : ∀ c ∈ batched (split_sequences seqs) maxSeqsLen, ∀ kv ∈ c,
        ((combinedNumbered m unknownType seqType c).lookup kv.1).isSome) :
    ∃ out, numberResult m unknownType seqType maxSeqsLen (split_sequences seqs) = some out
      ∧ out.map Prod.fst = (split_sequences seqs).map Prod.fst := by
  obtain ⟨rs, hrs, hk⟩ := processChunks_keys m unknownType seqType _ hmodel
  refine ⟨rs.flatten, by simp [numberResult, hrs], ?_⟩
  rw [hk, batched_flatten _ _ hn]

/-- Witness for C1: two sequences, the second a delimited pair, chunk size 2,
with classification fan-out and a model that reverses every chunk; the output
keys come back in normalizer order `b, a-1, a-2`. -/
theorem order_preservation_witness :
    (split_sequences demoSeqs).map Prod.fst = ["b", "a-1", "a-2"]
    ∧ ∃ out,
        numberResult demoChunkModel true "antibody" 2 (split_sequences demoSeqs) = some out
        ∧ out.map Prod.fst = (split_sequences demoSeqs).map Prod.fst :=
  ⟨by decide,
   order_preservation demoChunkModel true "antibody" 2 (by decide) demoSeqs (by decide)⟩

/-- Counterexample to C2: `c2Polymer` has one residue while `c2Numbering`
carries two gap-free numbering keys, yet `renumber_pdbx` succeeds, silently
assigning only the first key — `zip(polymer, numbers)` stops at the shorter
sequence and no mismatch is reported. -/
theorem renumber_truncation_counterexample :
    2 ≤ (noGaps c2Numbering).length ∧ c2Polymer.length = 1
    ∧ renumber_pdbx c2Polymer c2Numbering = some [⟨'A', (5, ' ')⟩] := by
  decide

/-- Claim C2 as amended: for every structural chain whose physical residue
count is smaller than the number of numbering keys to be assigned, the
renumbering does not report a mismatch: it succeeds, silently truncating the
assignment to the available residues (the chain keeps its length and the
surplus keys are dropped). -/
theorem renumber_truncates (polymer : List Residue) (numbered : ModelNumbering)
    (h : noGaps numbered ≠ []) :
    ∃ out, renumber_pdbx polymer numbered = some out
      ∧ out.length = polymer.length := by
  cases hng : noGaps numbered with
  | nil => exact absurd hng h
  | cons e rest =>
    refine ⟨assignNumbers polymer (fullNumbers polymer numbered), ?_,
      assignNumbers_length _ _⟩
    simp [renumber_pdbx, hng]

/-- Witness for the amended C2, at the counterexample inputs. -/
theorem renumber_truncates_witness :
    noGaps c2Numbering ≠ []
    ∧ ∃ out, renumber_pdbx c2Polymer c2Numbering = some out
        ∧ out.length = c2Polymer.length :=
  ⟨by decide, renumber_truncates c2Polymer c2Numbering (by decide)⟩

/-- Claim C3: on a sorted key set, `imgt_order` emits, for each consecutive
boundary pair over `{33, 61, 112}`, the keys strictly between the boundaries in
ascending order, then the keys at the boundary in descending insertion order
with the no-insertion key last, and finally the keys above 112 in ascending
order; in particular `{111, 111A, 112A, 112B, 112, 113}` is ordered as
`111, 111A, 112B, 112A, 112, 113`. -/
theorem imgt_order_spec (l : List ResKey) (hs : l.Pairwise keyLT) :
    (imgt_order l =
      l.filter (fun k => decide (k.1 < 33))
        ++ (l.filter fun k => decide (k.1 = 33)).reverse
        ++ l.filter (fun k => decide (33 < k.1) && decide (k.1 < 61))
        ++ (l.filter fun k => decide (k.1 = 61)).reverse
        ++ l.filter (fun k => decide (61 < k.1) && decide (k.1 < 112))
        ++ (l.filter fun k => decide (k.1 = 112)).reverse
        ++ l.filter fun k => decide (112 < k.1))
    ∧ (∀ seg : List ResKey,
        (seg = l.filter (fun k => decide (k.1 < 33))
          ∨ seg = l.filter (fun k => decide (33 < k.1) && decide (k.1 < 61))
          ∨ seg = l.filter (fun k => decide (61 < k.1) && decide (k.1 < 112))
          ∨ seg = l.filter fun k => decide (112 < k.1)) →
        seg.Pairwise keyLT)
    ∧ (∀ b ∈ imgt_reversed,
        ((l.filter fun k => decide (k.1 = b)).reverse).Pairwise fun a c => keyLT c a)
    ∧ (∀ b ∈ imgt_reversed, (b, ' ') ∈ l → (∀ k ∈ l, ' ' ≤ k.2) →
        ((l.filter fun k => decide (k.1 = b)).reverse).getLast? = some (b, ' '))
    ∧ imgt_order imgtExampleKeys
        = [(111, ' '), (111, 'A'), (112, 'B'), (112, 'A'), (112, ' '), (113, ' ')] := by
  refine ⟨imgt_order_eq l, ?_, ?_, ?_, by decide⟩
  · rintro seg (rfl | rfl | rfl | rfl) <;> exact hs.sublist (List.filter_sublist _)
  · intro b _
    rw [List.pairwise_reverse]
    exact hs.sublist (List.filter_sublist _)
  · intro b _ hmem hins
    rw [List.getLast?_reverse]
    exact head_filter_blank l b hs hmem hins

/-- Witness for C3 at the example key set. -/
theorem imgt_order_spec_witness :
    imgtExampleKeys.Pairwise keyLT
    ∧ imgt_order imgtExampleKeys
        = [(111, ' '), (111, 'A'), (112, 'B'), (112, 'A'), (112, ' '), (113, ' ')] :=
  ⟨by decide, (imgt_order_spec imgtExampleKeys (by decide)).2.2.2.2⟩

/-- Claim C4: for every ordered input mapping and chunk limit, the chunks are
contiguous, non-overlapping and in order (their concatenation is the input),
every chunk except possibly the last has exactly the limit as size, all chunks
are nonempty and within the limit, 5 sequences at limit 2 give chunk sizes
`2, 2, 1`, streaming serialisation is selected iff the total count strictly
exceeds the limit, and in that case the total-entry-count header is the first
output event, before any chunk is appended. -/
theorem chunk_scheduler_spec {κ σ ν : Type} [BEq κ] (m : ChunkModel κ σ ν)
    (unknownType : Bool) (seqType : String) (n : Nat) (seqs : List (κ × σ))
    (hn : 0 < n)
    (hok : (processChunks m unknownType seqType (batched seqs n)).isSome) :
    (batched seqs n).flatten = seqs
    ∧ (∀ c ∈ (batched seqs n).dropLast, c.length = n)
    ∧ (∀ c ∈ batched seqs n, 0 < c.length ∧ c.length ≤ n)
    ∧ (batched [1, 2, 3, 4, 5] 2).map List.length = [2, 2, 1]
    ∧ (serialise seqs.length n = true ↔ n < seqs.length)
    ∧ (n < seqs.length → ∃ evts, numberEvents m unknownType seqType n seqs
        = some (Event.writeHeader seqs.length :: evts))
    ∧ (¬ n < seqs.length → ∃ evts, numberEvents m unknownType seqType n seqs = some evts
        ∧ ∀ e ∈ evts, ∀ k, e ≠ Event.writeHeader k) := by
  obtain ⟨rs, hrs⟩ := Option.isSome_iff_exists.mp hok
  refine ⟨batched_flatten seqs n hn,
    batched_dropLast_aux n hn seqs.length seqs le_rfl,
    batched_sizes_aux n hn seqs.length seqs le_rfl,
    by decide, by simp [serialise], ?_, ?_⟩
  · intro hlt
    exact ⟨rs.map Event.chunkAppended, by simp [numberEvents, hrs, serialise, hlt]⟩
  · intro hge
    refine ⟨rs.map Event.chunkAppended, by simp [numberEvents, hrs, serialise, hge], ?_⟩
    intro e he k
    obtain ⟨r, _, rfl⟩ := List.mem_map.mp he
    simp

/-- Witness for C4: five sequences at limit 2. -/
theorem chunk_scheduler_spec_witness :
    (batched demoFiveSeqs 2).map List.length = [2, 2, 1]
    ∧ (batched demoFiveSeqs 2).flatten = demoFiveSeqs
    ∧ (serialise demoFiveSeqs.length 2 = true ↔ 2 < demoFiveSeqs.length) :=
  have h := chunk_scheduler_spec demoChunkModel false "antibody" 2 demoFiveSeqs
    (by decide) (by decide)
  ⟨by decide, h.1, h.2.2.2.2.1⟩

/-- Claim C5 (against the code): `coerce_input` names a list of bare sequences
`Sequence 1`, `Sequence 2`, ... (capitalised, space-separated) and a single
bare sequence `Sequence`, whereas the claim — and the tests in
`tests/test_input_data_processing.py` — expect `sequence-1`, `sequence-2`, ...
and `sequence`.  The evaluation below uses the exact input of the failing test
case `list-multiple-sequence-strings`. -/
theorem coerce_input_naming_bug :
    (coerce_input_list ["test-1", "test-2"]).map Prod.fst = ["Sequence 1", "Sequence 2"]
    ∧ (coerce_input_list ["test-1", "test-2"]).map Prod.fst ≠ ["sequence-1", "sequence-2"]
    ∧ coerce_input_str "test" = .named [("Sequence", "test")]
    ∧ coerce_input_str "test" ≠ .named [("sequence", "test")] := by
  decide

/-- Claim C6 (against the code): in the state left by a streaming run followed
by a scheme conversion, `to_csv` and `to_json` do not raise the dedicated
unsupported-combination `ValueError`: evaluating the guard
`self._last_converted_output and not self.max_len_exceed` reads the never
assigned attribute `max_len_exceed` first, so an `AttributeError` escapes
instead and the `raise ValueError` branch is unreachable. -/
theorem to_csv_json_streaming_converted_bug :
    to_csv convertedStreamingState = .attributeError "max_len_exceed"
    ∧ to_json convertedStreamingState = .attributeError "max_len_exceed"
    ∧ to_csv convertedStreamingState ≠ .unsupportedCombination
    ∧ to_json convertedStreamingState ≠ .unsupportedCombination := by
  decide

/-- Claim C7: for every result set, the CSV columns are the five fixed metadata
columns followed by one column per distinct residue key required or observed
across all sequences; positions 1 through 128 are always present even if
unobserved; a residue column with no value in a row renders as the gap marker,
and a failed sequence (no numbering) renders the gap marker in every residue
column, contributing only its metadata. -/
theorem write_csv_columns_spec (results : List (String × NumResult))
    (_hne : results ≠ []) :
    csvHeader results = metadataColumns ++ (orderedResidueNumbers results).map keyStr
    ∧ (∀ nr : Nat, 1 ≤ nr → nr ≤ 128 → (nr, ' ') ∈ orderedResidueNumbers results)
    ∧ (∀ k : ResKey, k ∈ orderedResidueNumbers results ↔
        k ∈ requiredResidueNumbers ∨ k ∈ observedResidueNumbers results)
    ∧ (orderedResidueNumbers results).Nodup
    ∧ (∀ r : NumResult, ∀ col : String,
        (∀ e ∈ r.numbering.getD [], keyStr e.1 ≠ col) → csvCell r col = "-")
    ∧ (∀ r : NumResult, r.numbering = none → ∀ col : String, csvCell r col = "-") := by
  refine ⟨rfl, ?_, mem_orderedResidueNumbers results, ?_, ?_, ?_⟩
  · intro nr h1 h128
    refine (mem_orderedResidueNumbers results _).mpr (Or.inl ?_)
    exact List.mem_map.mpr ⟨nr - 1, List.mem_range.mpr (by omega), by simp; omega⟩
  · rw [orderedResidueNumbers]
    split_ifs
    · exact (imgt_order_perm _).nodup_iff.mpr (List.nodup_dedup _)
    · exact List.nodup_dedup _
  · intro r col h
    rw [csvCell, lookup_eq_none_of_keys]
    · rfl
    · intro e he
      obtain ⟨e0, he0, rfl⟩ := List.mem_map.mp he
      exact h e0 he0
  · intro r h col
    rw [csvCell, h]
    rfl

/-- Witness for C7 at a two-sequence result set (one failed), in the IMGT
scheme. -/
theorem write_csv_columns_spec_witness :
    demoResults ≠ []
    ∧ ((128 : Nat), ' ') ∈ orderedResidueNumbers demoResults
    ∧ ((112 : Nat), 'A') ∈ orderedResidueNumbers demoResults :=
  have h := write_csv_columns_spec demoResults (by decide)
  ⟨by decide, h.2.1 128 (by decide) (by decide),
   (h.2.2.1 _).mpr (Or.inr (by decide))⟩

/-- Claim C8: structure back-projection is idempotent.  Renumbering writes only
the residue `seqid` fields and the resolved offset and backfill depend only on
the residue letters and on the model result, so applying `renumber_pdbx` twice
with the same `NumberingResult` yields exactly the result of applying it
once. -/
theorem renumber_pdbx_idempotent (polymer : List Residue)
    (numbered : ModelNumbering) (out : List Residue)
    (h : renumber_pdbx polymer numbered = some out) :
    renumber_pdbx out numbered = some out := by
  cases hng : noGaps numbered with
  | nil => simp [renumber_pdbx, hng] at h
  | cons e rest =>
    simp only [renumber_pdbx, hng] at h ⊢
    obtain rfl : assignNumbers polymer (fullNumbers polymer numbered) = out :=
      Option.some.inj h
    rw [fullNumbers_assign]
    exact congrArg some (assignNumbers_idem _ _)

/-- Witness for C8 at a three-residue polymer whose tail matches the model
numbering by substring search. -/
theorem renumber_pdbx_idempotent_witness :
    renumber_pdbx demoPolymer demoNumbering
      = some [⟨'Q', (9, ' ')⟩, ⟨'V', (10, ' ')⟩, ⟨'K', (11, ' ')⟩]
    ∧ renumber_pdbx [⟨'Q', (9, ' ')⟩, ⟨'V', (10, ' ')⟩, ⟨'K', (11, ' ')⟩] demoNumbering
      = some [⟨'Q', (9, ' ')⟩, ⟨'V', (10, ' ')⟩, ⟨'K', (11, ' ')⟩] :=
  ⟨by decide, renumber_pdbx_idempotent demoPolymer demoNumbering _ (by decide)⟩

/-- Claim C9: the tokenisation loop of `pick_windows` produces exactly one
entry per input sequence, and the entry at any position depends only on the
sequence at that position — a tokenisation failure (invalid residue) elsewhere
in the list neither aborts the batch nor changes the entries of the other
sequences, each of which is still tokenised and submitted. -/
theorem pick_windows_isolation (aa : Tokeniser) (seqs seqs2 : List String)
    (i : Nat) (h : seqs[i]? = seqs2[i]?) :
    (pick_windows_entries aa seqs).length = seqs.length
    ∧ (pick_windows_entries aa seqs)[i]? = (pick_windows_entries aa seqs2)[i]? := by
  constructor
  · simp [pick_windows_entries]
  · simp [pick_windows_entries, List.getElem?_map, h]

/-- Witness for C9: three sequences of which the middle one holds an invalid
residue; the entries are one per sequence, the middle one the placeholder, the
others tokenised. -/
theorem pick_windows_isolation_witness :
    pick_windows_entries demoTokeniser ["AC", "AX", "CA"]
      = [.tok [0, 2, 3, 1], .placeholder, .tok [0, 3, 2, 1]]
    ∧ (pick_windows_entries demoTokeniser ["AC", "AX", "CA"]).length = 3
    ∧ (pick_windows_entries demoTokeniser ["AC", "AX", "CA"])[0]?
        = (pick_windows_entries demoTokeniser ["AC", "AX", "CA"])[0]? :=
  have h := pick_windows_isolation demoTokeniser ["AC", "AX", "CA"] ["AC", "AX", "CA"]
    0 rfl
  ⟨by decide, h.1, h.2⟩

/-- Claim C10: after a successful buffered numbering run with no scheme
conversion, `to_csv`, `to_json` and `to_imgt_regions` all reach a truthiness
test of the attribute `max_len_exceed`, which no code path ever assigns, so
every such call fails with `AttributeError` instead of producing output; in
any state where the attribute is missing, the final plain buffered branch of
these methods is unreachable. -/
theorem methods_attribute_error (st : AnarciiState)
    (hmissing : st.maxLenExceed = none) :
    to_csv (afterNumber anarciiInit) = .attributeError "max_len_exceed"
    ∧ to_json (afterNumber anarciiInit) = .attributeError "max_len_exceed"
    ∧ to_imgt_regions (afterNumber anarciiInit) = .attributeError "max_len_exceed"
    ∧ to_csv st ≠ .bufferedWrite
    ∧ to_json st ≠ .bufferedWrite
    ∧ to_imgt_regions st ≠ .bufferedWrite := by
  obtain ⟨ln, lc, mle⟩ := st
  simp only at hmissing
  subst hmissing
  cases ln <;> cases lc <;>
    simp [to_csv, to_json, to_imgt_regions, afterNumber, anarciiInit]

/-- Witness for C10 at the freshly numbered state. -/
theorem methods_attribute_error_witness :
    (afterNumber anarciiInit).maxLenExceed = none
    ∧ to_csv (afterNumber anarciiInit) = .attributeError "max_len_exceed"
    ∧ to_csv (afterNumber anarciiInit) ≠ .bufferedWrite :=
  have h := methods_attribute_error (afterNumber anarciiInit) rfl
  ⟨rfl, h.1, h.2.2.2.1⟩

end Anarcii
